import Mathlib

/-
Verification of the REST poller `rest-client.py`.

The development shallowly embeds the program's components:
  * Python string helpers (`str.strip`, truthiness of strings);
  * a JSON value model with a parser and compact serializer mirroring
    CPython's `json.loads` / `json.dumps(..., separators=(",", ":"))`,
    and `str()` rendering of decoded scalar values;
  * `format_body`, `flatten_headers`;
  * the polling loop `poll` as a step function over a scripted list of
    transport outcomes (each outcome: a completed response, a raised
    `requests.RequestException`, or a `KeyboardInterrupt` arriving at one
    of the two suspension points: inside the transport call or during the
    inter-attempt sleep).

Machine floats appear only in the latency measurement and the configured
interval.  Latency is modelled as an exact number of tenths of a
millisecond (matching the `{:.1f}` rendering when the measurement is an
exact tenth); the interval is modelled as a rational number.
-/

/-- Whitespace set of Python's `str.strip()` (ASCII part; the program only
ever strips response bodies, and the claims exercise ASCII whitespace). -/
def pyIsSpaceChar (c : Char) : Bool :=
  c == ' ' || c == '\t' || c == '\n' || c == '\r' || c == '\x0b' || c == '\x0c'

/-- Python `text.strip()`: drop leading and trailing whitespace. -/
def pyStrip (s : String) : String :=
  String.mk (((s.data.dropWhile pyIsSpaceChar).reverse.dropWhile pyIsSpaceChar).reverse)

/-- Left brace character (written via its code point). -/
def lbrace : Char := Char.ofNat 123

/-- Right brace character (written via its code point). -/
def rbrace : Char := Char.ofNat 125

/-- JSON values as decoded by CPython's `json` module: `null`, booleans,
integers, floats (kept as an exact decimal mantissa/exponent pair),
the non-standard constants `NaN` / `Infinity` / `-Infinity` that
`json.loads` accepts by default, strings, arrays, and objects
(an insertion-ordered association list, as a Python `dict`). -/
inductive Json where
  | null
  | bool (b : Bool)
  | int (n : Int)
  | float (m : Int) (e : Int)
  | nan
  | inf (neg : Bool)
  | str (s : String)
  | arr (elems : List Json)
  | obj (members : List (String × Json))

/-- Python `d[k] = v` on an insertion-ordered dict represented as an
association list: an existing key keeps its position and gets the new
value, a new key is appended at the end. -/
def pyDictSet {α : Type} (d : List (String × α)) (k : String) (v : α) :
    List (String × α) :=
  if d.any (fun p => p.1 == k) then
    d.map (fun p => if p.1 == k then (p.1, v) else p)
  else
    d ++ [(k, v)]

/-- Value of a hexadecimal digit character, if it is one. -/
def hexDigitVal (c : Char) : Option Nat :=
  if 48 ≤ c.toNat ∧ c.toNat ≤ 57 then some (c.toNat - 48)
  else if 97 ≤ c.toNat ∧ c.toNat ≤ 102 then some (c.toNat - 87)
  else if 65 ≤ c.toNat ∧ c.toNat ≤ 70 then some (c.toNat - 55)
  else none

/-- Parse exactly four hex digits (the `XXXX` of a `\uXXXX` escape). -/
def parseHex4 (cs : List Char) : Option (Nat × List Char) :=
  match cs with
  | a :: b :: c :: d :: r =>
    match hexDigitVal a, hexDigitVal b, hexDigitVal c, hexDigitVal d with
    | some x, some y, some z, some w => some (x * 4096 + y * 256 + z * 16 + w, r)
    | _, _, _, _ => none
  | _ => none

/-- JSON inter-token whitespace accepted by `json.loads`. -/
def jsonWs (c : Char) : Bool :=
  c == ' ' || c == '\t' || c == '\n' || c == '\r'

/-- Skip JSON whitespace. -/
def skipWs (cs : List Char) : List Char := cs.dropWhile jsonWs

/-- Match a literal token, returning the remaining input on success. -/
def matchLit : List Char → List Char → Option (List Char)
  | [], cs => some cs
  | l :: ls, c :: cs => if c == l then matchLit ls cs else none
  | _ :: _, [] => none

/-- Decimal digit test. -/
def isDig (c : Char) : Bool := 48 ≤ c.toNat && c.toNat ≤ 57

/-- Numeric value of a list of decimal digit characters. -/
def digitsToNat (ds : List Char) : Nat :=
  ds.foldl (fun a c => a * 10 + (c.toNat - 48)) 0

/-- Apply an optional minus sign. -/
def intSigned (neg : Bool) (n : Nat) : Int :=
  if neg then -(n : Int) else (n : Int)

/-- Parse the optional fraction and exponent parts of a JSON number, given
the (already parsed) sign and integer-part digits.  A `.` or `e` not
followed by at least one digit is not consumed (as in the `json` module's
number regex, where the fraction and exponent groups simply fail to
match). -/
def parseFracExp (neg : Bool) (intDs : List Char) (rest : List Char) :
    Option (Json × List Char) :=
  let fr :=
    match rest with
    | c :: r =>
      if c == '.' then
        let p := r.span isDig
        if p.1.isEmpty then (([] : List Char), rest) else (p.1, p.2)
      else (([] : List Char), rest)
    | [] => (([] : List Char), rest)
  let fracDs := fr.1
  let r2 := fr.2
  let ex :=
    match r2 with
    | c :: r =>
      if c == 'e' || c == 'E' then
        match r with
        | c2 :: r2b =>
          if c2 == '-' || c2 == '+' then
            let p := r2b.span isDig
            if p.1.isEmpty then (false, ([] : List Char), r2)
            else (c2 == '-', p.1, p.2)
          else
            let p := r.span isDig
            if p.1.isEmpty then (false, ([] : List Char), r2)
            else (false, p.1, p.2)
        | [] => (false, ([] : List Char), r2)
      else (false, ([] : List Char), r2)
    | [] => (false, ([] : List Char), r2)
  let expNeg := ex.1
  let expDs := ex.2.1
  let r3 := ex.2.2
  if fracDs.isEmpty && expDs.isEmpty then
    some (Json.int (intSigned neg (digitsToNat intDs)), r2)
  else
    let m : Int := intSigned neg (digitsToNat (intDs ++ fracDs))
    let e : Int := intSigned expNeg (digitsToNat expDs) - (fracDs.length : Int)
    some (Json.float m e, r3)

/-- Parse a JSON number: optional minus, then `0` or a nonzero-led digit
run (leading zeros are rejected by stopping the integer part at a lone
`0`, exactly as the `json` number regex does), then optional fraction and
exponent. -/
def parseNumber (cs : List Char) : Option (Json × List Char) :=
  let sg :=
    match cs with
    | c :: r => if c == '-' then (true, r) else (false, cs)
    | [] => (false, cs)
  let neg := sg.1
  let cs1 := sg.2
  match cs1 with
  | c :: r =>
    if c == '0' then parseFracExp neg ['0'] r
    else if isDig c then
      let p := cs1.span isDig
      parseFracExp neg p.1 p.2
    else none
  | [] => none

/-- Parse the body of a JSON string (after the opening quote), with the
`json` module's `strict=True` behavior: unescaped control characters are
rejected; the standard escapes and `\uXXXX` (with surrogate-pair
combination) are decoded.  A code point that is not a valid Lean `Char`
(a lone surrogate) degrades to `Char.ofNat`'s default — Python keeps lone
surrogates in its strings, which Lean characters cannot represent; no
claim exercises this corner. -/
def parseStringBody : Nat → List Char → List Char → Option (String × List Char)
  | 0, _, _ => none
  | fuel + 1, acc, cs =>
    match cs with
    | [] => none
    | c :: rest =>
      if c == '"' then some (String.mk acc.reverse, rest)
      else if c == '\\' then
        match rest with
        | [] => none
        | e :: r2 =>
          if e == '"' then parseStringBody fuel ('"' :: acc) r2
          else if e == '\\' then parseStringBody fuel ('\\' :: acc) r2
          else if e == '/' then parseStringBody fuel ('/' :: acc) r2
          else if e == 'b' then parseStringBody fuel (Char.ofNat 8 :: acc) r2
          else if e == 'f' then parseStringBody fuel (Char.ofNat 12 :: acc) r2
          else if e == 'n' then parseStringBody fuel ('\n' :: acc) r2
          else if e == 'r' then parseStringBody fuel ('\r' :: acc) r2
          else if e == 't' then parseStringBody fuel ('\t' :: acc) r2
          else if e == 'u' then
            match parseHex4 r2 with
            | none => none
            | some (n, r3) =>
              if 55296 ≤ n ∧ n ≤ 56319 then
                match r3 with
                | b1 :: b2 :: r4 =>
                  if b1 == '\\' && b2 == 'u' then
                    match parseHex4 r4 with
                    | some (n2, r5) =>
                      if 56320 ≤ n2 ∧ n2 ≤ 57343 then
                        parseStringBody fuel
                          (Char.ofNat (65536 + (n - 55296) * 1024 + (n2 - 56320)) :: acc) r5
                      else parseStringBody fuel (Char.ofNat n :: acc) r3
                    | none => parseStringBody fuel (Char.ofNat n :: acc) r3
                  else parseStringBody fuel (Char.ofNat n :: acc) r3
                | _ => parseStringBody fuel (Char.ofNat n :: acc) r3
              else parseStringBody fuel (Char.ofNat n :: acc) r3
          else none
      else if c.toNat < 32 then none
      else parseStringBody fuel (c :: acc) rest

mutual

/-- Recursive-descent JSON value parser (fuel-indexed; the top-level entry
point supplies ample fuel).  The input is positioned at the first
character of the value (leading whitespace already skipped). -/
def parseValue : Nat → List Char → Option (Json × List Char)
  | 0, _ => none
  | fuel + 1, cs =>
    match cs with
    | [] => none
    | c :: rest =>
      if c == '"' then
        match parseStringBody (rest.length + 1) [] rest with
        | some (s, r) => some (Json.str s, r)
        | none => none
      else if c == lbrace then
        let r1 := skipWs rest
        match r1 with
        | c2 :: r2 => if c2 == rbrace then some (Json.obj [], r2) else parseMembers fuel [] r1
        | [] => none
      else if c == '[' then
        let r1 := skipWs rest
        match r1 with
        | c2 :: r2 => if c2 == ']' then some (Json.arr [], r2) else parseElems fuel [] r1
        | [] => none
      else
        match matchLit "true".data cs with
        | some r => some (Json.bool true, r)
        | none =>
        match matchLit "false".data cs with
        | some r => some (Json.bool false, r)
        | none =>
        match matchLit "null".data cs with
        | some r => some (Json.null, r)
        | none =>
        match matchLit "NaN".data cs with
        | some r => some (Json.nan, r)
        | none =>
        match matchLit "Infinity".data cs with
        | some r => some (Json.inf false, r)
        | none =>
        match matchLit "-Infinity".data cs with
        | some r => some (Json.inf true, r)
        | none => parseNumber cs

/-- Parse the elements of a non-empty JSON array (input at a value). -/
def parseElems : Nat → List Json → List Char → Option (Json × List Char)
  | 0, _, _ => none
  | fuel + 1, acc, cs =>
    match parseValue fuel cs with
    | none => none
    | some (v, r) =>
      let r1 := skipWs r
      match r1 with
      | c :: r2 =>
        if c == ',' then parseElems fuel (v :: acc) (skipWs r2)
        else if c == ']' then some (Json.arr (v :: acc).reverse, r2)
        else none
      | [] => none

/-- Parse the members of a non-empty JSON object (input at a key);
duplicate keys overwrite in place, as when `json.loads` builds a `dict`. -/
def parseMembers : Nat → List (String × Json) → List Char → Option (Json × List Char)
  | 0, _, _ => none
  | fuel + 1, acc, cs =>
    match cs with
    | c :: r =>
      if c == '"' then
        match parseStringBody (r.length + 1) [] r with
        | none => none
        | some (k, r2) =>
          let r3 := skipWs r2
          match r3 with
          | c2 :: r4 =>
            if c2 == ':' then
              match parseValue fuel (skipWs r4) with
              | none => none
              | some (v, r6) =>
                let acc2 := pyDictSet acc k v
                let r7 := skipWs r6
                match r7 with
                | c3 :: r8 =>
                  if c3 == ',' then parseMembers fuel acc2 (skipWs r8)
                  else if c3 == rbrace then some (Json.obj acc2, r8)
                  else none
                | [] => none
            else none
          | [] => none
      else none
    | [] => none

end

/-- CPython `json.loads` (hence `response.json()`): skip surrounding
whitespace, parse exactly one value, reject trailing garbage.  The fuel
`2 * length + 4` dominates the parser's call depth, which grows by at
most two per consumed character. -/
def json_loads (s : String) : Option Json :=
  let cs := skipWs s.data
  match parseValue (2 * cs.length + 4) cs with
  | some (v, rest) => if (skipWs rest).isEmpty then some v else none
  | none => none

/-- Character for a hex digit value (lowercase, as `json.dumps` emits). -/
def hexDigitChar (n : Nat) : Char :=
  if n < 10 then Char.ofNat (48 + n) else Char.ofNat (87 + n)

/-- Four lowercase hex digits of a (≤ 16-bit) code point. -/
def hex4 (n : Nat) : String :=
  String.mk [hexDigitChar (n / 4096 % 16), hexDigitChar (n / 256 % 16),
             hexDigitChar (n / 16 % 16), hexDigitChar (n % 16)]

/-- Escaping of one character inside a `json.dumps` string literal with the
default `ensure_ascii=True`: printable ASCII passes through, the short
escapes cover the usual control characters, every other character becomes
`\uXXXX` (a surrogate pair for astral code points). -/
def escChar (c : Char) : String :=
  if c == '"' then "\\\""
  else if c == '\\' then "\\\\"
  else if c == '\n' then "\\n"
  else if c == '\r' then "\\r"
  else if c == '\t' then "\\t"
  else if c == Char.ofNat 8 then "\\b"
  else if c == Char.ofNat 12 then "\\f"
  else if c.toNat < 32 then "\\u" ++ hex4 c.toNat
  else if c.toNat < 127 then String.singleton c
  else if c.toNat < 65536 then "\\u" ++ hex4 c.toNat
  else
    "\\u" ++ hex4 (55296 + (c.toNat - 65536) / 1024) ++
      "\\u" ++ hex4 (56320 + (c.toNat - 65536) % 1024)

/-- Concatenated escapes of a list of characters (the encoder's scan over
the string). -/
def escapeList : List Char → String
  | [] => ""
  | c :: cs => escChar c ++ escapeList cs

/-- A `json.dumps` string literal: quoted, characters escaped. -/
def jsonEscape (s : String) : String :=
  "\"" ++ escapeList s.data ++ "\""

/-- Strip trailing decimal zeros from a mantissa, bumping the exponent
(fuel-indexed; the digit count of the mantissa is ample fuel). -/
def stripZeros : Nat → Nat → Int → Nat × Int
  | 0, m, e => (m, e)
  | f + 1, m, e => if m ≠ 0 ∧ m % 10 = 0 then stripZeros f (m / 10) (e + 1) else (m, e)

/-- Rendering of a CPython float whose exact value is `m * 10 ^ e`, as
produced by `repr`/`str` (which `json.dumps` also uses): positional
notation with a forced `.0` for integral values while the decimal
exponent lies in `[-4, 16)`, scientific notation with a two-digit
exponent otherwise.  The model is exact for decimally-representable
values and ignores binary rounding of the underlying IEEE double; no
claim depends on a float body. -/
def pyFloatRepr (m : Int) (e : Int) : String :=
  if m = 0 then "0.0"
  else
    let neg := m < 0
    let stripped := stripZeros (toString m.natAbs).length m.natAbs e
    let m1 := stripped.1
    let e1 := stripped.2
    let ds := (toString m1).data
    let d : Int := (ds.length : Int)
    let pointPos : Int := d + e1
    let sign := if neg then "-" else ""
    if -3 ≤ pointPos ∧ pointPos ≤ 16 then
      if 0 ≤ e1 then
        sign ++ String.mk ds ++ String.mk (List.replicate e1.toNat '0') ++ ".0"
      else if 0 < pointPos then
        sign ++ String.mk (ds.take pointPos.toNat) ++ "." ++
          String.mk (ds.drop pointPos.toNat)
      else
        sign ++ "0." ++ String.mk (List.replicate (-pointPos).toNat '0') ++
          String.mk ds
    else
      let mantissa :=
        if ds.length = 1 then String.mk ds
        else String.mk (ds.take 1) ++ "." ++ String.mk (ds.drop 1)
      let ex := pointPos - 1
      let exDigits := toString ex.natAbs
      let exDigits := if exDigits.length < 2 then "0" ++ exDigits else exDigits
      sign ++ mantissa ++ "e" ++ (if ex < 0 then "-" else "+") ++ exDigits

mutual

/-- CPython `json.dumps(data, separators=(",", ":"))`: compact separators,
`ensure_ascii` escaping, members in dict (insertion) order. -/
def json_dumps : Json → String
  | Json.null => "null"
  | Json.bool true => "true"
  | Json.bool false => "false"
  | Json.int n => toString n
  | Json.float m e => pyFloatRepr m e
  | Json.nan => "NaN"
  | Json.inf true => "-Infinity"
  | Json.inf false => "Infinity"
  | Json.str s => jsonEscape s
  | Json.arr xs => "[" ++ dumpsElems xs ++ "]"
  | Json.obj ms => "\x7b" ++ dumpsMembers ms ++ "\x7d"

/-- Comma-joined array elements of `json.dumps`. -/
def dumpsElems : List Json → String
  | [] => ""
  | [x] => json_dumps x
  | x :: y :: xs => json_dumps x ++ "," ++ dumpsElems (y :: xs)

/-- Comma-joined `key:value` members of `json.dumps`. -/
def dumpsMembers : List (String × Json) → String
  | [] => ""
  | [(k, v)] => jsonEscape k ++ ":" ++ json_dumps v
  | (k, v) :: m :: ms => jsonEscape k ++ ":" ++ json_dumps v ++ "," ++ dumpsMembers (m :: ms)

end

/-- Python `str()` of a value decoded from JSON.  `format_body` only
applies it to scalars (`dict` and `list` are serialized instead); the
container cases are given the compact dump so the function is total, with
the caveat that Python's `str` of a container would use `repr` spacing —
that code path is unreachable from `format_body`. -/
def pyStr : Json → String
  | Json.null => "None"
  | Json.bool true => "True"
  | Json.bool false => "False"
  | Json.int n => toString n
  | Json.float m e => pyFloatRepr m e
  | Json.nan => "nan"
  | Json.inf true => "-inf"
  | Json.inf false => "inf"
  | Json.str s => s
  | Json.arr xs => "[" ++ dumpsElems xs ++ "]"
  | Json.obj ms => "\x7b" ++ dumpsMembers ms ++ "\x7d"

/-- Whether the decoded value is a Python `dict` or `list`
(the `isinstance(data, (dict, list))` test). -/
def Json.isContainer : Json → Bool
  | Json.arr _ => true
  | Json.obj _ => true
  | _ => false

/-- The program's `format_body(response, raw)`, over the response body
text.  Raw mode trims and substitutes `<empty body>` for an empty result
(Python's `body or "<empty body>"` on a possibly-empty string); parsed
mode decodes JSON, serializes containers compactly, renders scalars with
`str`, and on a decode error falls back to the trimmed text with the
`<non-JSON body>` placeholder. -/
def format_body (text : String) (raw : Bool) : String :=
  if raw then
    let body := pyStrip text
    if body = "" then "<empty body>" else body
  else
    match json_loads text with
    | none =>
      let snippet := pyStrip text
      if snippet = "" then "<non-JSON body>" else snippet
    | some data =>
      if data.isContainer then json_dumps data else pyStr data

/-- The program's `flatten_headers`: fold the ordered `(name, value)`
pairs into a Python dict. -/
def flatten_headers (items : List (String × String)) : List (String × String) :=
  items.foldl (fun h p => pyDictSet h p.1 p.2) []

/-- Lookup in the association-list model of a Python dict. -/
def dictFind {α : Type} (d : List (String × α)) (k : String) : Option α :=
  (d.find? (fun p => p.1 == k)).map (fun p => p.2)

/-- Modelled from the spec's words for the Header Set Builder contract
("the value from the pair appearing later in the input sequence wins"):
the value of the last pair carrying the given name. -/
def specLastHeader (items : List (String × String)) (k : String) : Option String :=
  ((items.filter (fun p => p.1 == k)).getLast?).map (fun p => p.2)

/-- The mutable `PollStats` dataclass: total attempts, successes, failures
(all starting at 0). -/
structure PollStats where
  total : Nat := 0
  success : Nat := 0
  failure : Nat := 0
deriving DecidableEq

/-- Outcome of one loop iteration's suspension points, scripting the
environment: the transport call returned a response (status code, a
latency measurement in tenths of a millisecond, and the body text), or it
raised a `requests.RequestException` (class name and message), or a
`KeyboardInterrupt` arrived inside the transport call itself.  For the
first two, `intrInSleep` scripts a `KeyboardInterrupt` arriving during
the subsequent inter-attempt sleep (meaningful only when that sleep
happens). -/
inductive PollEvent where
  | ok (status latencyTenths : Nat) (body : String) (intrInSleep : Bool)
  | exc (excName excMsg : String) (intrInSleep : Bool)
  | intrInGet
deriving DecidableEq

/-- Observable actions of one run: a success line printed to stdout
(fields before rendering), a failure line printed to stderr, or a
`time.sleep` for the given number of seconds. -/
inductive OutEvent where
  | success (seq status latencyTenths : Nat) (body : String)
  | failure (seq : Nat) (excName excMsg : String)
  | slept (seconds : ℚ)
deriving DecidableEq

/-- Why the loop stopped: the count limit (the `while` guard or the
`break`), a `KeyboardInterrupt`, or — an artifact of the finite script —
the scripted events ran out while the loop wanted to continue (the run is
still in progress at that point). -/
inductive StopReason where
  | limitReached
  | interrupted
  | outOfScript
deriving DecidableEq

/-- How one iteration ends: fall through to the next iteration, `break`
on the count limit, or propagate a `KeyboardInterrupt`. -/
inductive IterExit where
  | next
  | brk
  | intr
deriving DecidableEq

/-- Result of a (finished or exhausted) run. -/
structure RunResult where
  stats : PollStats
  trace : List OutEvent
  stop : StopReason
deriving DecidableEq

/-- The `while` guard `limit is None or stats.total < limit`. -/
def continueCond (limit : Option Nat) (stats : PollStats) : Bool :=
  match limit with
  | none => true
  | some n => stats.total < n

/-- The `break` guard `limit is not None and stats.total >= limit`. -/
def limitHit (limit : Option Nat) (stats : PollStats) : Bool :=
  match limit with
  | none => false
  | some n => n ≤ stats.total

/-- Tail of the loop body (source lines 175–178): `break` if the limit
has been reached, otherwise sleep when the interval is positive (a
`KeyboardInterrupt` during that sleep ends the loop). -/
def pollIterTail (limit : Option Nat) (interval : ℚ) (stats : PollStats)
    (intrInSleep : Bool) (lines : List OutEvent) :
    PollStats × List OutEvent × IterExit :=
  if limitHit limit stats then (stats, lines, IterExit.brk)
  else if 0 < interval then
    (stats, lines ++ [OutEvent.slept interval],
      if intrInSleep then IterExit.intr else IterExit.next)
  else (stats, lines, IterExit.next)

/-- One iteration of the loop body (source lines 151–178): record the
request id, bump `total`, issue the request, classify the outcome
(bumping exactly one of `success` / `failure` and emitting one line), and
run the tail.  A `KeyboardInterrupt` inside the transport call escapes
the inner `try` (it is not a `RequestException`) after `total` was
already bumped, resolving the attempt to neither success nor failure. -/
def pollIter (limit : Option Nat) (interval : ℚ) (raw : Bool)
    (stats : PollStats) (e : PollEvent) : PollStats × List OutEvent × IterExit :=
  let requestId := stats.total + 1
  let stats1 : PollStats := { stats with total := stats.total + 1 }
  match e with
  | PollEvent.intrInGet => (stats1, [], IterExit.intr)
  | PollEvent.ok status latencyTenths body intr =>
    let stats2 : PollStats := { stats1 with success := stats1.success + 1 }
    pollIterTail limit interval stats2 intr
      [OutEvent.success requestId status latencyTenths (format_body body raw)]
  | PollEvent.exc excName excMsg intr =>
    let stats2 : PollStats := { stats1 with failure := stats1.failure + 1 }
    pollIterTail limit interval stats2 intr
      [OutEvent.failure requestId excName excMsg]

/-- The polling loop of `poll` (source lines 150–180), driven by the
scripted transport outcomes. -/
def pollLoop (limit : Option Nat) (interval : ℚ) (raw : Bool) :
    List PollEvent → PollStats → RunResult
  | events, stats =>
    if continueCond limit stats then
      match events with
      | [] => ⟨stats, [], StopReason.outOfScript⟩
      | e :: rest =>
        match pollIter limit interval raw stats e with
        | (stats1, lines, IterExit.next) =>
          let r := pollLoop limit interval raw rest stats1
          ⟨r.stats, lines ++ r.trace, r.stop⟩
        | (stats1, lines, IterExit.brk) => ⟨stats1, lines, StopReason.limitReached⟩
        | (stats1, lines, IterExit.intr) => ⟨stats1, lines, StopReason.interrupted⟩
    else ⟨stats, [], StopReason.limitReached⟩

/-- A whole run of `poll`: `limit` is `None if args.count == 0 else
args.count`, stats start at zero. -/
def pollRun (limit : Option Nat) (interval : ℚ) (raw : Bool)
    (events : List PollEvent) : RunResult :=
  pollLoop limit interval raw events {}

/-- The exit status `0 if stats.success else 1` (source line 187). -/
def pollExit (stats : PollStats) : Nat :=
  if stats.success ≠ 0 then 0 else 1

/-- Python's `f"\x7b...:04\x7d"` field: decimal digits, zero-padded on the
left to a minimum width of four. -/
def pad4 (n : Nat) : String :=
  let s := toString n
  if s.length < 4 then String.mk (List.replicate (4 - s.length) '0') ++ s else s

/-- Python's `f"\x7b...:.1f\x7d"` on a latency measurement that is an exact
number of tenths of a millisecond. -/
def fmtMs1 (tenths : Nat) : String :=
  toString (tenths / 10) ++ "." ++ toString (tenths % 10)

/-- The success line printed to stdout (source lines 171–174). -/
def successLine (seq status latencyTenths : Nat) (body : String) : String :=
  "[" ++ pad4 seq ++ "] " ++ toString status ++ " " ++ fmtMs1 latencyTenths ++
    "ms " ++ body

/-- The failure line printed to stderr (source lines 163–166). -/
def failureLine (seq : Nat) (excName excMsg : String) : String :=
  "[" ++ pad4 seq ++ "] ERROR " ++ excName ++ ": " ++ excMsg

/-- Output stream a line goes to. -/
inductive Sink where
  | stdout
  | stderr
deriving DecidableEq

/-- Rendering of a trace action as an actual printed line (sleeps print
nothing). -/
def render : OutEvent → Option (Sink × String)
  | OutEvent.success seq status lat body => some (Sink.stdout, successLine seq status lat body)
  | OutEvent.failure seq n m => some (Sink.stderr, failureLine seq n m)
  | OutEvent.slept _ => none

/-- Whether a trace action is an emitted attempt line. -/
def isAttempt : OutEvent → Bool
  | OutEvent.slept _ => false
  | _ => true

/-- Sequence number carried by an attempt line. -/
def seqOf : OutEvent → Nat
  | OutEvent.success seq _ _ _ => seq
  | OutEvent.failure seq _ _ => seq
  | OutEvent.slept _ => 0

/-- An event scripts an uninterrupted iteration. -/
def cleanEvent : PollEvent → Bool
  | PollEvent.ok _ _ _ intr => !intr
  | PollEvent.exc _ _ intr => !intr
  | PollEvent.intrInGet => false

/-- Whether a string embeds a newline character. -/
def hasNL (s : String) : Bool := s.data.contains '\n'

theorem pollIter_ok (limit : Option Nat) (interval : ℚ) (raw : Bool)
    (s : PollStats) (status lat : Nat) (body : String) (intr : Bool) :
    pollIter limit interval raw s (PollEvent.ok status lat body intr) =
      pollIterTail limit interval ⟨s.total + 1, s.success + 1, s.failure⟩ intr
        [OutEvent.success (s.total + 1) status lat (format_body body raw)] := rfl

theorem pollIter_exc (limit : Option Nat) (interval : ℚ) (raw : Bool)
    (s : PollStats) (excName excMsg : String) (intr : Bool) :
    pollIter limit interval raw s (PollEvent.exc excName excMsg intr) =
      pollIterTail limit interval ⟨s.total + 1, s.success, s.failure + 1⟩ intr
        [OutEvent.failure (s.total + 1) excName excMsg] := rfl

theorem pollIter_intr (limit : Option Nat) (interval : ℚ) (raw : Bool)
    (s : PollStats) :
    pollIter limit interval raw s PollEvent.intrInGet =
      (⟨s.total + 1, s.success, s.failure⟩, [], IterExit.intr) := rfl

theorem pollIterTail_brk (limit : Option Nat) (interval : ℚ) (s : PollStats)
    (intr : Bool) (lines : List OutEvent) (h : limitHit limit s = true) :
    pollIterTail limit interval s intr lines = (s, lines, IterExit.brk) := by
  simp [pollIterTail, h]

theorem pollIterTail_sleep (limit : Option Nat) (interval : ℚ) (s : PollStats)
    (intr : Bool) (lines : List OutEvent) (h : limitHit limit s = false)
    (hi : 0 < interval) :
    pollIterTail limit interval s intr lines =
      (s, lines ++ [OutEvent.slept interval],
        if intr then IterExit.intr else IterExit.next) := by
  simp [pollIterTail, h, hi]

theorem pollIterTail_next (limit : Option Nat) (interval : ℚ) (s : PollStats)
    (intr : Bool) (lines : List OutEvent) (h : limitHit limit s = false)
    (hi : ¬ 0 < interval) :
    pollIterTail limit interval s intr lines = (s, lines, IterExit.next) := by
  simp [pollIterTail, h, hi]

theorem pollLoop_stop (limit : Option Nat) (interval : ℚ) (raw : Bool)
    (events : List PollEvent) (s : PollStats) (h : continueCond limit s = false) :
    pollLoop limit interval raw events s = ⟨s, [], StopReason.limitReached⟩ := by
  cases events <;> simp [pollLoop, h]

theorem pollLoop_nil (limit : Option Nat) (interval : ℚ) (raw : Bool)
    (s : PollStats) (h : continueCond limit s = true) :
    pollLoop limit interval raw [] s = ⟨s, [], StopReason.outOfScript⟩ := by
  simp [pollLoop, h]

theorem pollLoop_cons_next (limit : Option Nat) (interval : ℚ) (raw : Bool)
    (e : PollEvent) (rest : List PollEvent) (s s1 : PollStats)
    (lines : List OutEvent) (h : continueCond limit s = true)
    (hstep : pollIter limit interval raw s e = (s1, lines, IterExit.next)) :
    pollLoop limit interval raw (e :: rest) s =
      ⟨(pollLoop limit interval raw rest s1).stats,
        lines ++ (pollLoop limit interval raw rest s1).trace,
        (pollLoop limit interval raw rest s1).stop⟩ := by
  simp [pollLoop, h, hstep]

theorem pollLoop_cons_brk (limit : Option Nat) (interval : ℚ) (raw : Bool)
    (e : PollEvent) (rest : List PollEvent) (s s1 : PollStats)
    (lines : List OutEvent) (h : continueCond limit s = true)
    (hstep : pollIter limit interval raw s e = (s1, lines, IterExit.brk)) :
    pollLoop limit interval raw (e :: rest) s = ⟨s1, lines, StopReason.limitReached⟩ := by
  simp [pollLoop, h, hstep]

theorem pollLoop_cons_intr (limit : Option Nat) (interval : ℚ) (raw : Bool)
    (e : PollEvent) (rest : List PollEvent) (s s1 : PollStats)
    (lines : List OutEvent) (h : continueCond limit s = true)
    (hstep : pollIter limit interval raw s e = (s1, lines, IterExit.intr)) :
    pollLoop limit interval raw (e :: rest) s = ⟨s1, lines, StopReason.interrupted⟩ := by
  simp [pollLoop, h, hstep]

theorem dictFind_nil {α : Type} (k : String) :
    dictFind ([] : List (String × α)) k = none := rfl

theorem dictFind_cons {α : Type} (p : String × α) (l : List (String × α)) (k : String) :
    dictFind (p :: l) k = if p.1 == k then some p.2 else dictFind l k := by
  by_cases h : (p.1 == k) = true <;> simp [dictFind, List.find?_cons, h]

theorem dictFind_map_set_same {α : Type} (a : String) (v : α) :
    ∀ d : List (String × α), (d.any fun p => p.1 == a) = true →
      dictFind (d.map fun p => if p.1 == a then (p.1, v) else p) a = some v := by
  intro d
  induction d with
  | nil => simp
  | cons p d ih =>
    intro hany
    by_cases h : (p.1 == a) = true
    · simp only [List.map_cons, if_pos h, dictFind_cons, h, if_pos]
    · simp only [List.map_cons, if_neg h, dictFind_cons, h, Bool.false_eq_true,
        if_false, if_neg]
      exact ih (by simpa [h] using hany)

theorem dictFind_append_set_same {α : Type} (a : String) (v : α) :
    ∀ d : List (String × α), (d.any fun p => p.1 == a) = false →
      dictFind (d ++ [(a, v)]) a = some v := by
  intro d
  induction d with
  | nil => simp [dictFind_cons]
  | cons p d ih =>
    intro hany
    have hall := List.any_eq_false.mp hany
    have h : (p.1 == a) = false := by
      have := hall p (List.mem_cons_self p d)
      simpa using this
    rw [List.cons_append, dictFind_cons, if_neg (by simp [h])]
    exact ih (List.any_eq_false.mpr fun q hq => hall q (List.mem_cons_of_mem p hq))

theorem dictFind_map_set_other {α : Type} (a k : String) (v : α) (hak : a ≠ k) :
    ∀ d : List (String × α),
      dictFind (d.map fun p => if p.1 == a then (p.1, v) else p) k = dictFind d k := by
  intro d
  induction d with
  | nil => simp
  | cons p d ih =>
    by_cases h : (p.1 == a) = true
    · have hpk : (p.1 == k) = false := by
        have : p.1 = a := by simpa using h
        simp [this, hak]
      simp only [List.map_cons, if_pos h, dictFind_cons, hpk, Bool.false_eq_true,
        if_false, if_neg]
      exact ih
    · simp only [List.map_cons, if_neg h, dictFind_cons]
      by_cases hpk : (p.1 == k) = true
      · simp [hpk]
      · simp only [hpk, Bool.false_eq_true, if_false, if_neg]
        exact ih

theorem dictFind_append_set_other {α : Type} (a k : String) (v : α) (hak : a ≠ k) :
    ∀ d : List (String × α), dictFind (d ++ [(a, v)]) k = dictFind d k := by
  intro d
  induction d with
  | nil => simp [dictFind_cons, hak]
  | cons p d ih =>
    rw [List.cons_append, dictFind_cons, dictFind_cons]
    by_cases h : (p.1 == k) = true
    · simp [h]
    · simp only [h, Bool.false_eq_true, if_false, if_neg]
      exact ih

theorem dictFind_pyDictSet {α : Type} (d : List (String × α)) (a k : String) (v : α) :
    dictFind (pyDictSet d a v) k = if a = k then some v else dictFind d k := by
  unfold pyDictSet
  by_cases hak : a = k
  · subst hak
    rw [if_pos rfl]
    by_cases hany : (d.any fun p => p.1 == a) = true
    · rw [if_pos hany]
      exact dictFind_map_set_same a v d hany
    · rw [if_neg hany]
      exact dictFind_append_set_same a v d
        (by simp only [Bool.not_eq_true] at hany; exact hany)
  · rw [if_neg hak]
    by_cases hany : (d.any fun p => p.1 == a) = true
    · rw [if_pos hany]
      exact dictFind_map_set_other a k v hak d
    · rw [if_neg hany]
      exact dictFind_append_set_other a k v hak d

theorem flatten_headers_acc (items : List (String × String)) (k : String) :
    ∀ d : List (String × String),
      dictFind (items.foldl (fun h p => pyDictSet h p.1 p.2) d) k =
        match specLastHeader items k with
        | some v => some v
        | none => dictFind d k := by
  induction items using List.reverseRecOn with
  | nil => intro d; simp [specLastHeader]
  | append_singleton items x ih =>
    intro d
    rw [List.foldl_append]
    simp only [List.foldl_cons, List.foldl_nil]
    rw [dictFind_pyDictSet]
    unfold specLastHeader
    rw [List.filter_append]
    by_cases hxk : x.1 = k
    · have hx : (x.1 == k) = true := by simp [hxk]
      simp only [List.filter_cons, hx, if_pos, List.filter_nil, List.getLast?_concat]
      simp [hxk]
    · have hx : (x.1 == k) = false := by simp [hxk]
      simp only [List.filter_cons, hx, Bool.false_eq_true, if_false, List.filter_nil,
        List.append_nil, if_neg]
      rw [if_neg hxk]
      have := ih d
      unfold specLastHeader at this
      exact this

theorem flatten_headers_last_wins :
    (∀ (items : List (String × String)) (k : String),
      dictFind (flatten_headers items) k = specLastHeader items k) ∧
    dictFind (flatten_headers [("X", "1"), ("X", "2")]) "X" = some "2" := by
  constructor
  · intro items k
    unfold flatten_headers
    rw [flatten_headers_acc items k []]
    rcases specLastHeader items k with _ | v <;> simp [dictFind]
  · rfl

/-- C5: the exit status is 0 exactly when at least one attempt succeeded
and 1 exactly when none did, for every run; it is a function of the
success count alone, so the failure and total counters have no influence
beyond that. -/
theorem poll_exit_status (limit : Option Nat) (interval : ℚ) (raw : Bool)
    (events : List PollEvent) (s t : PollStats) (hst : s.success = t.success) :
    (pollExit (pollRun limit interval raw events).stats = 0 ↔
      1 ≤ (pollRun limit interval raw events).stats.success) ∧
    (pollExit (pollRun limit interval raw events).stats = 1 ↔
      (pollRun limit interval raw events).stats.success = 0) ∧
    pollExit s = pollExit t := by
  refine ⟨?_, ?_, by unfold pollExit; rw [hst]⟩
  · unfold pollExit; split <;> omega
  · unfold pollExit; split <;> omega

/-- Witness for C5: a run with one success and three failures exits 0, a
run with no success exits 1, and stats agreeing on the success count get
the same exit status. -/
theorem poll_exit_status_inst :
    pollExit ⟨4, 1, 3⟩ = 0 ∧ pollExit ⟨1, 0, 0⟩ = 1 ∧
      pollExit ⟨4, 1, 3⟩ = pollExit ⟨9, 1, 8⟩ := by
  refine ⟨by decide, by decide, ?_⟩
  exact (poll_exit_status none 0 false [] ⟨4, 1, 3⟩ ⟨9, 1, 8⟩ rfl).2.2

/-- C10: in parsed mode a JSON scalar is rendered with Python's `str` of
the decoded value, not its JSON serialization: `true` renders as `True`
(while `json.dumps` would give `true`), `null` as `None`, a JSON string
without its quotes, and the empty JSON string as the empty string with no
placeholder. -/
theorem format_body_scalar_py_str :
    json_loads "true" = some (Json.bool true) ∧
    format_body "true" false = "True" ∧
    json_dumps (Json.bool true) = "true" ∧
    format_body "true" false ≠ json_dumps (Json.bool true) ∧
    format_body "null" false = "None" ∧
    format_body "\"blue\"" false = "blue" ∧
    format_body "\"\"" false = "" := by
  exact ⟨rfl, rfl, rfl, by decide, rfl, rfl, rfl⟩

theorem pollIterTail_fst (limit : Option Nat) (interval : ℚ) (s : PollStats)
    (intr : Bool) (lines : List OutEvent) :
    (pollIterTail limit interval s intr lines).1 = s := by
  unfold pollIterTail
  split
  · rfl
  · split <;> rfl

theorem pollIterTail_trace_cases (limit : Option Nat) (interval : ℚ) (s : PollStats)
    (intr : Bool) (lines : List OutEvent) :
    (pollIterTail limit interval s intr lines).2.1 = lines ∨
      (pollIterTail limit interval s intr lines).2.1 = lines ++ [OutEvent.slept interval] := by
  unfold pollIterTail
  split
  · exact Or.inl rfl
  · split
    · exact Or.inr rfl
    · exact Or.inl rfl

theorem pollIter_stats (limit : Option Nat) (interval : ℚ) (raw : Bool)
    (s : PollStats) (e : PollEvent) :
    (pollIter limit interval raw s e).1 =
      match e with
      | PollEvent.ok _ _ _ _ => ⟨s.total + 1, s.success + 1, s.failure⟩
      | PollEvent.exc _ _ _ => ⟨s.total + 1, s.success, s.failure + 1⟩
      | PollEvent.intrInGet => ⟨s.total + 1, s.success, s.failure⟩ := by
  cases e
  · rw [pollIter_ok, pollIterTail_fst]
  · rw [pollIter_exc, pollIterTail_fst]
  · rw [pollIter_intr]

theorem pollIter_attempts (limit : Option Nat) (interval : ℚ) (raw : Bool)
    (s : PollStats) (e : PollEvent) :
    ((pollIter limit interval raw s e).2.1).filter isAttempt =
      match e with
      | PollEvent.ok st lat b _ =>
        [OutEvent.success (s.total + 1) st lat (format_body b raw)]
      | PollEvent.exc n m _ => [OutEvent.failure (s.total + 1) n m]
      | PollEvent.intrInGet => [] := by
  cases e with
  | ok st lat b intr =>
    rw [pollIter_ok]
    rcases pollIterTail_trace_cases limit interval
        ⟨s.total + 1, s.success + 1, s.failure⟩ intr
        [OutEvent.success (s.total + 1) st lat (format_body b raw)] with h | h <;>
      rw [h] <;> simp [isAttempt]
  | exc n m intr =>
    rw [pollIter_exc]
    rcases pollIterTail_trace_cases limit interval
        ⟨s.total + 1, s.success, s.failure + 1⟩ intr
        [OutEvent.failure (s.total + 1) n m] with h | h <;>
      rw [h] <;> simp [isAttempt]
  | intrInGet => rw [pollIter_intr]; rfl

theorem pollIter_exit (limit : Option Nat) (interval : ℚ) (raw : Bool)
    (s : PollStats) (e : PollEvent) (hclean : cleanEvent e = true) :
    (pollIter limit interval raw s e).2.2 =
      if limitHit limit (pollIter limit interval raw s e).1 then IterExit.brk
      else IterExit.next := by
  cases e with
  | ok st lat b intr =>
    have hintr : intr = false := by simpa [cleanEvent] using hclean
    subst hintr
    rw [pollIter_ok, pollIterTail_fst]
    unfold pollIterTail
    split
    · simp_all
    · split <;> simp_all
  | exc n m intr =>
    have hintr : intr = false := by simpa [cleanEvent] using hclean
    subst hintr
    rw [pollIter_exc, pollIterTail_fst]
    unfold pollIterTail
    split
    · simp_all
    · split <;> simp_all
  | intrInGet => simp [cleanEvent] at hclean

theorem pollLoop_cons_eq (limit : Option Nat) (interval : ℚ) (raw : Bool)
    (e : PollEvent) (rest : List PollEvent) (s : PollStats)
    (hc : continueCond limit s = true) :
    pollLoop limit interval raw (e :: rest) s =
      match pollIter limit interval raw s e with
      | (s1, lines, IterExit.next) =>
        ⟨(pollLoop limit interval raw rest s1).stats,
          lines ++ (pollLoop limit interval raw rest s1).trace,
          (pollLoop limit interval raw rest s1).stop⟩
      | (s1, lines, IterExit.brk) => ⟨s1, lines, StopReason.limitReached⟩
      | (s1, lines, IterExit.intr) => ⟨s1, lines, StopReason.interrupted⟩ := by
  simp [pollLoop, hc]

theorem pollLoop_cons_split (limit : Option Nat) (interval : ℚ) (raw : Bool)
    (e : PollEvent) (rest : List PollEvent) (s : PollStats)
    (hc : continueCond limit s = true) :
    ((pollLoop limit interval raw (e :: rest) s).stats = (pollIter limit interval raw s e).1 ∧
      (pollLoop limit interval raw (e :: rest) s).trace = (pollIter limit interval raw s e).2.1) ∨
    ((pollLoop limit interval raw (e :: rest) s).stats =
        (pollLoop limit interval raw rest (pollIter limit interval raw s e).1).stats ∧
      (pollLoop limit interval raw (e :: rest) s).trace =
        (pollIter limit interval raw s e).2.1 ++
          (pollLoop limit interval raw rest (pollIter limit interval raw s e).1).trace ∧
      e ≠ PollEvent.intrInGet) := by
  rcases hstep : pollIter limit interval raw s e with ⟨s1, lines, ex⟩
  rw [pollLoop_cons_eq limit interval raw e rest s hc, hstep]
  cases ex with
  | next =>
    refine Or.inr ⟨rfl, rfl, ?_⟩
    intro he
    subst he
    rw [pollIter_intr] at hstep
    simp at hstep
  | brk => exact Or.inl ⟨rfl, rfl⟩
  | intr => exact Or.inl ⟨rfl, rfl⟩

/-- C2: every completed attempt is classified into exactly one of two
outcomes.  A transport return (any status code) bumps only the success
counter and emits exactly one attempt line, rendered to stdout as the
zero-padded 4-digit sequence number, the numeric status code, the latency
in milliseconds to one decimal place, and the formatted body; a raised
transport error bumps only the failure counter and emits exactly one
attempt line, rendered to stderr as the zero-padded sequence number, the
exception class name as error-category label, and its description, with
no latency field. -/
theorem poll_attempt_classification (limit : Option Nat) (interval : ℚ)
    (raw : Bool) (s : PollStats) (status lat : Nat)
    (body excName excMsg : String) (intr : Bool) :
    ((pollIter limit interval raw s (PollEvent.ok status lat body intr)).1 =
        ⟨s.total + 1, s.success + 1, s.failure⟩ ∧
      ((pollIter limit interval raw s (PollEvent.ok status lat body intr)).2.1).filter
          isAttempt =
        [OutEvent.success (s.total + 1) status lat (format_body body raw)] ∧
      render (OutEvent.success (s.total + 1) status lat (format_body body raw)) =
        some (Sink.stdout,
          "[" ++ pad4 (s.total + 1) ++ "] " ++ toString status ++ " " ++
            fmtMs1 lat ++ "ms " ++ format_body body raw)) ∧
    ((pollIter limit interval raw s (PollEvent.exc excName excMsg intr)).1 =
        ⟨s.total + 1, s.success, s.failure + 1⟩ ∧
      ((pollIter limit interval raw s (PollEvent.exc excName excMsg intr)).2.1).filter
          isAttempt =
        [OutEvent.failure (s.total + 1) excName excMsg] ∧
      render (OutEvent.failure (s.total + 1) excName excMsg) =
        some (Sink.stderr,
          "[" ++ pad4 (s.total + 1) ++ "] ERROR " ++ excName ++ ": " ++ excMsg)) := by
  refine ⟨⟨?_, ?_, rfl⟩, ⟨?_, ?_, rfl⟩⟩
  · rw [pollIter_stats]
  · rw [pollIter_attempts]
  · rw [pollIter_stats]
  · rw [pollIter_attempts]

/-- C9: after an attempt resolves, the iteration sleeps exactly when the
count limit has not just been reached and the configured interval is
positive; reaching the limit breaks out immediately with no sleep, a
non-positive interval proceeds with no sleep, and any sleep that happens
is for exactly the configured interval. -/
theorem poll_sleep_policy (limit : Option Nat) (interval : ℚ) (s : PollStats)
    (intr : Bool) (lines : List OutEvent)
    (hl : ∀ d : ℚ, OutEvent.slept d ∉ lines) :
    ((OutEvent.slept interval ∈ (pollIterTail limit interval s intr lines).2.1) ↔
      (limitHit limit s = false ∧ 0 < interval)) ∧
    (limitHit limit s = true →
      pollIterTail limit interval s intr lines = (s, lines, IterExit.brk)) ∧
    (∀ d : ℚ, OutEvent.slept d ∈ (pollIterTail limit interval s intr lines).2.1 →
      d = interval) ∧
    (limitHit limit s = false → ¬ 0 < interval →
      pollIterTail limit interval s intr lines = (s, lines, IterExit.next)) := by
  by_cases hhit : limitHit limit s = true
  · rw [pollIterTail_brk limit interval s intr lines hhit]
    refine ⟨?_, fun _ => rfl, ?_, ?_⟩
    · simp only [hhit]
      constructor
      · intro hmem
        exact absurd hmem (hl interval)
      · rintro ⟨hfalse, _⟩
        cases hfalse
    · intro d hmem
      exact absurd hmem (hl d)
    · intro hfalse
      rw [hhit] at hfalse
      cases hfalse
  · have hhit' : limitHit limit s = false := by
      simpa using hhit
    by_cases hpos : 0 < interval
    · rw [pollIterTail_sleep limit interval s intr lines hhit' hpos]
      refine ⟨?_, ?_, ?_, ?_⟩
      · simp [hhit', hpos]
      · intro h
        rw [hhit'] at h
        cases h
      · intro d hmem
        rcases List.mem_append.mp hmem with h | h
        · exact absurd h (hl d)
        · simpa using h
      · intro _ hnp
        exact absurd hpos hnp
    · rw [pollIterTail_next limit interval s intr lines hhit' hpos]
      refine ⟨?_, ?_, ?_, ?_⟩
      · simp only [hhit']
        constructor
        · intro hmem
          exact absurd hmem (hl interval)
        · rintro ⟨_, hp⟩
          exact absurd hp hpos
      · intro h
        rw [hhit'] at h
        cases h
      · intro d hmem
        exact absurd hmem (hl d)
      · intro _ _
        rfl

/-- Witness for C9: with a limit of 2 and one attempt done, the iteration
sleeps for the configured interval; with the limit just reached it breaks
with no sleep; with a zero interval it proceeds with no sleep. -/
theorem poll_sleep_policy_inst :
    OutEvent.slept 1 ∈ (pollIterTail (some 2) 1 ⟨1, 1, 0⟩ false []).2.1 ∧
    pollIterTail (some 2) 1 ⟨2, 2, 0⟩ false [] = (⟨2, 2, 0⟩, [], IterExit.brk) ∧
    pollIterTail none 0 ⟨1, 1, 0⟩ false [] = (⟨1, 1, 0⟩, [], IterExit.next) := by
  have h1 := poll_sleep_policy (some 2) 1 ⟨1, 1, 0⟩ false [] (by simp)
  have h2 := poll_sleep_policy (some 2) 1 ⟨2, 2, 0⟩ false [] (by simp)
  have h3 := poll_sleep_policy none 0 ⟨1, 1, 0⟩ false [] (by simp)
  exact ⟨h1.1.mpr ⟨rfl, by norm_num⟩, h2.2.1 rfl, h3.2.2.2 rfl (by norm_num)⟩

/-- C7: raw mode renders the trimmed body, or the empty-body placeholder
when the trimmed body is empty; parsed mode re-serializes a decoded
object or array compactly, renders a decoded scalar textually, and on a
parse failure falls back to the trimmed body with the non-JSON-body
placeholder (not the empty-body placeholder) when that is empty; a parse
failure never affects the attempt's success classification. -/
theorem format_body_modes (t : String) (j : Json) :
    (format_body t true = (if pyStrip t = "" then "<empty body>" else pyStrip t)) ∧
    (json_loads t = some j → j.isContainer = true →
      format_body t false = json_dumps j) ∧
    (json_loads t = some j → j.isContainer = false →
      format_body t false = pyStr j) ∧
    (json_loads t = none → format_body t false =
      (if pyStrip t = "" then "<non-JSON body>" else pyStrip t)) ∧
    (∀ (limit : Option Nat) (interval : ℚ) (s : PollStats) (st lat : Nat)
        (intr : Bool),
      (pollIter limit interval false s (PollEvent.ok st lat t intr)).1.success =
        s.success + 1) := by
  refine ⟨?_, ?_, ?_, ?_, ?_⟩
  · simp [format_body]
  · intro h hc
    simp [format_body, h, hc]
  · intro h hc
    simp [format_body, h, hc]
  · intro h
    simp [format_body, h]
  · intro limit interval s st lat intr
    rw [pollIter_stats]

/-- Witness for C7: concrete bodies exercising every branch — whitespace
in raw mode gives the empty-body placeholder, a JSON object re-serializes
compactly, a negative integer renders textually, non-JSON text falls back
verbatim, and whitespace in parsed mode gives the non-JSON placeholder. -/
theorem format_body_modes_inst :
    format_body "  " true = "<empty body>" ∧
    format_body "\x7b\"color\": \"blue\"\x7d" false = "\x7b\"color\":\"blue\"\x7d" ∧
    format_body "-12" false = "-12" ∧
    format_body "not json" false = "not json" ∧
    format_body " " false = "<non-JSON body>" := by
  refine ⟨?_, ?_, ?_, ?_, ?_⟩
  · rw [(format_body_modes "  " Json.null).1]
    rfl
  · rw [(format_body_modes "\x7b\"color\": \"blue\"\x7d"
      (Json.obj [("color", Json.str "blue")])).2.1 rfl rfl]
    rfl
  · rw [(format_body_modes "-12" (Json.int (-12))).2.2.1 rfl rfl]
    rfl
  · rw [(format_body_modes "not json" Json.null).2.2.2.1 rfl]
    rfl
  · rw [(format_body_modes " " Json.null).2.2.2.1 rfl]
    rfl

theorem pollIter_stats_facts (limit : Option Nat) (interval : ℚ) (raw : Bool)
    (s : PollStats) (e : PollEvent) :
    (pollIter limit interval raw s e).1.total = s.total + 1 ∧
    s.success ≤ (pollIter limit interval raw s e).1.success ∧
    s.failure ≤ (pollIter limit interval raw s e).1.failure ∧
    (pollIter limit interval raw s e).1.success + (pollIter limit interval raw s e).1.failure ≤
      s.success + s.failure + 1 ∧
    (e ≠ PollEvent.intrInGet →
      (pollIter limit interval raw s e).1.success + (pollIter limit interval raw s e).1.failure =
        s.success + s.failure + 1) := by
  cases e with
  | ok st lat b intr =>
    rw [pollIter_stats]
    refine ⟨rfl, Nat.le_succ _, le_rfl, ?_, fun _ => ?_⟩
    · show s.success + 1 + s.failure ≤ s.success + s.failure + 1
      omega
    · show s.success + 1 + s.failure = s.success + s.failure + 1
      omega
  | exc n m intr =>
    rw [pollIter_stats]
    refine ⟨rfl, le_rfl, Nat.le_succ _, ?_, fun _ => ?_⟩
    · show s.success + (s.failure + 1) ≤ s.success + s.failure + 1
      omega
    · show s.success + (s.failure + 1) = s.success + s.failure + 1
      omega
  | intrInGet =>
    rw [pollIter_stats]
    exact ⟨rfl, le_rfl, le_rfl, Nat.le_succ _, fun h => absurd rfl h⟩

/-- C1 (amended): for every run the three counters are monotonically
non-decreasing and `success + failure` never exceeds `total`; when no
interrupt arrives inside a transport call, `total = success + failure`
holds when the loop ends — an interrupt inside the transport call itself
exits the loop with the just-initiated attempt counted in `total` but
resolved to neither success nor failure (the generalization over the
starting statistics makes the statements hold at every point of every
run, each reachable state being the start of a tail run). -/
theorem poll_stats_invariant (limit : Option Nat) (interval : ℚ) (raw : Bool)
    (events : List PollEvent) :
    ∀ s : PollStats,
      s.total ≤ (pollLoop limit interval raw events s).stats.total ∧
      s.success ≤ (pollLoop limit interval raw events s).stats.success ∧
      s.failure ≤ (pollLoop limit interval raw events s).stats.failure ∧
      (s.success + s.failure ≤ s.total →
        (pollLoop limit interval raw events s).stats.success +
            (pollLoop limit interval raw events s).stats.failure ≤
          (pollLoop limit interval raw events s).stats.total) ∧
      ((∀ e ∈ events, e ≠ PollEvent.intrInGet) →
        s.total = s.success + s.failure →
        (pollLoop limit interval raw events s).stats.total =
          (pollLoop limit interval raw events s).stats.success +
            (pollLoop limit interval raw events s).stats.failure) := by
  induction events with
  | nil =>
    intro s
    by_cases hc : continueCond limit s = true
    · rw [pollLoop_nil limit interval raw s hc]
      exact ⟨le_rfl, le_rfl, le_rfl, fun h => h, fun _ h => h⟩
    · rw [pollLoop_stop limit interval raw [] s (by simpa using hc)]
      exact ⟨le_rfl, le_rfl, le_rfl, fun h => h, fun _ h => h⟩
  | cons e rest ih =>
    intro s
    by_cases hc : continueCond limit s = true
    case neg =>
      rw [pollLoop_stop limit interval raw (e :: rest) s (by simpa using hc)]
      exact ⟨le_rfl, le_rfl, le_rfl, fun h => h, fun _ h => h⟩
    case pos =>
      obtain ⟨f1, f2, f3, f4, f5⟩ := pollIter_stats_facts limit interval raw s e
      rcases pollLoop_cons_split limit interval raw e rest s hc with
        ⟨hstats, _⟩ | ⟨hstats, _, hne⟩
      · rw [hstats]
        refine ⟨by omega, f2, f3, fun h => by omega, fun hno h => ?_⟩
        by_cases he : e = PollEvent.intrInGet
        · exact absurd he (hno e (List.mem_cons_self e rest))
        · have := f5 he
          omega
      · rw [hstats]
        obtain ⟨h1, h2, h3, h4, h5⟩ := ih (pollIter limit interval raw s e).1
        refine ⟨by omega, le_trans f2 h2, le_trans f3 h3, fun h => ?_, fun hno h => ?_⟩
        · have := h4 (by omega)
          omega
        · have hf5 := f5 hne
          have := h5 (fun x hx => hno x (List.mem_cons_of_mem e hx)) (by omega)
          omega

/-- Counterexample to C1 as stated: a `KeyboardInterrupt` arriving inside
the transport call of the first attempt ends the run with `total = 1` but
`success = failure = 0`, so `total = success + failure` fails for this
interrupted stopping mode — the attempt that incremented `total` resolved
to neither success nor failure. -/
theorem poll_stats_invariant_cex :
    (pollRun none 0 false [PollEvent.intrInGet]).stop = StopReason.interrupted ∧
    (pollRun none 0 false [PollEvent.intrInGet]).stats.total ≠
      (pollRun none 0 false [PollEvent.intrInGet]).stats.success +
        (pollRun none 0 false [PollEvent.intrInGet]).stats.failure := by
  exact ⟨rfl, by decide⟩

/-- Witness for C1: a concrete two-attempt run (one success, one failure,
no interrupt) ends with `total = success + failure`. -/
theorem poll_stats_invariant_inst :
    (pollLoop (some 3) 0 false
        [PollEvent.ok 200 10 "a" false, PollEvent.exc "E" "m" false] ⟨0, 0, 0⟩).stats.total =
      (pollLoop (some 3) 0 false
          [PollEvent.ok 200 10 "a" false, PollEvent.exc "E" "m" false] ⟨0, 0, 0⟩).stats.success +
        (pollLoop (some 3) 0 false
            [PollEvent.ok 200 10 "a" false, PollEvent.exc "E" "m" false] ⟨0, 0, 0⟩).stats.failure := by
  exact (poll_stats_invariant (some 3) 0 false
    [PollEvent.ok 200 10 "a" false, PollEvent.exc "E" "m" false] ⟨0, 0, 0⟩).2.2.2.2
    (by decide) rfl

theorem pollLoop_limit_general (interval : ℚ) (raw : Bool) (N : Nat) :
    ∀ (events : List PollEvent) (s : PollStats),
      (∀ e ∈ events, cleanEvent e = true) → s.total ≤ N →
      N - s.total ≤ events.length →
      (pollLoop (some N) interval raw events s).stats.total = N ∧
      (pollLoop (some N) interval raw events s).stop = StopReason.limitReached := by
  intro events
  induction events with
  | nil =>
    intro s _ hle hlen
    have heq : s.total = N := by
      simp only [List.length_nil] at hlen
      omega
    have hc : continueCond (some N) s = false := by
      simp [continueCond, heq]
    rw [pollLoop_stop (some N) interval raw [] s hc]
    exact ⟨heq, rfl⟩
  | cons e rest ih =>
    intro s hclean hle hlen
    by_cases heq : s.total = N
    · have hc : continueCond (some N) s = false := by
        simp [continueCond, heq]
      rw [pollLoop_stop (some N) interval raw (e :: rest) s hc]
      exact ⟨heq, rfl⟩
    · have hlt : s.total < N := by omega
      have hc : continueCond (some N) s = true := by
        simpa [continueCond] using hlt
      have hcleane := hclean e (List.mem_cons_self e rest)
      have hex := pollIter_exit (some N) interval raw s e hcleane
      obtain ⟨f1, _, _, _, _⟩ := pollIter_stats_facts (some N) interval raw s e
      rw [pollLoop_cons_eq (some N) interval raw e rest s hc]
      rcases hstep : pollIter (some N) interval raw s e with ⟨s1, lines, ex⟩
      rw [hstep] at hex f1
      simp only at hex f1
      by_cases hlim : limitHit (some N) s1 = true
      · rw [if_pos hlim] at hex
        subst hex
        have hNle : N ≤ s1.total := by
          simpa [limitHit] using hlim
        constructor
        · show s1.total = N
          omega
        · rfl
      · rw [if_neg hlim] at hex
        subst hex
        have hNgt : ¬ N ≤ s1.total := by
          simpa [limitHit] using hlim
        have hrec := ih s1 (fun x hx => hclean x (List.mem_cons_of_mem e hx))
          (by omega) (by simp only [List.length_cons] at hlen; omega)
        constructor
        · show (pollLoop (some N) interval raw rest s1).stats.total = N
          exact hrec.1
        · show (pollLoop (some N) interval raw rest s1).stop = StopReason.limitReached
          exact hrec.2

/-- C3: a run configured with count limit N > 0, scripted with no
interrupts and with at least N transport outcomes available, performs
exactly N attempts: the final total equals N (no overshoot, no
undershoot) and the loop stops because the limit was reached. -/
theorem poll_count_limit_exact (interval : ℚ) (raw : Bool) (N : Nat)
    (events : List PollEvent) (_hN : 0 < N)
    (hclean : ∀ e ∈ events, cleanEvent e = true) (hlen : N ≤ events.length) :
    (pollRun (some N) interval raw events).stats.total = N ∧
    (pollRun (some N) interval raw events).stop = StopReason.limitReached := by
  unfold pollRun
  exact pollLoop_limit_general interval raw N events ⟨0, 0, 0⟩ hclean
    (Nat.zero_le N) (by simpa using hlen)

/-- Witness for C3: a concrete run with limit 2 over three scripted
outcomes performs exactly 2 attempts and stops on the limit. -/
theorem poll_count_limit_exact_inst :
    (pollRun (some 2) 1 true
        [PollEvent.ok 200 10 "x" false, PollEvent.exc "E" "m" false,
          PollEvent.ok 200 10 "y" false]).stats.total = 2 ∧
    (pollRun (some 2) 1 true
        [PollEvent.ok 200 10 "x" false, PollEvent.exc "E" "m" false,
          PollEvent.ok 200 10 "y" false]).stop = StopReason.limitReached := by
  exact poll_count_limit_exact 1 true 2
    [PollEvent.ok 200 10 "x" false, PollEvent.exc "E" "m" false,
      PollEvent.ok 200 10 "y" false]
    (by decide) (by decide) (by decide)

theorem pollLoop_seq_general (limit : Option Nat) (interval : ℚ) (raw : Bool) :
    ∀ (events : List PollEvent) (s : PollStats),
      ∃ n : Nat,
        ((pollLoop limit interval raw events s).trace.filter isAttempt).map seqOf =
          List.range' (s.total + 1) n ∧
        s.total + n ≤ (pollLoop limit interval raw events s).stats.total := by
  intro events
  induction events with
  | nil =>
    intro s
    by_cases hc : continueCond limit s = true
    · rw [pollLoop_nil limit interval raw s hc]
      exact ⟨0, rfl, Nat.le.refl⟩
    · rw [pollLoop_stop limit interval raw [] s (by simpa using hc)]
      exact ⟨0, rfl, Nat.le.refl⟩
  | cons e rest ih =>
    intro s
    by_cases hc : continueCond limit s = true
    case neg =>
      rw [pollLoop_stop limit interval raw (e :: rest) s (by simpa using hc)]
      exact ⟨0, rfl, Nat.le.refl⟩
    case pos =>
      have f1 := (pollIter_stats_facts limit interval raw s e).1
      have hatt := pollIter_attempts limit interval raw s e
      rcases pollLoop_cons_split limit interval raw e rest s hc with
        ⟨hstats, htrace⟩ | ⟨hstats, htrace, hne⟩
      · rw [hstats, htrace]
        cases e with
        | ok st lat b intr =>
          refine ⟨1, ?_, by omega⟩
          rw [hatt]
          rfl
        | exc n m intr =>
          refine ⟨1, ?_, by omega⟩
          rw [hatt]
          rfl
        | intrInGet =>
          refine ⟨0, ?_, by omega⟩
          rw [hatt]
          rfl
      · obtain ⟨n2, ih1, ih2⟩ := ih (pollIter limit interval raw s e).1
        rw [hstats, htrace, List.filter_append, List.map_append]
        cases e with
        | ok st lat b intr =>
          refine ⟨n2 + 1, ?_, by omega⟩
          rw [hatt, ih1, f1, List.range'_succ]
          rfl
        | exc n m intr =>
          refine ⟨n2 + 1, ?_, by omega⟩
          rw [hatt, ih1, f1, List.range'_succ]
          rfl
        | intrInGet => exact absurd rfl hne

/-- C4: in every run the emitted attempt lines carry contiguous sequence
numbers starting at 1 with no gaps or repeats, in emission order, and the
number of emitted attempt lines never exceeds the final total of
initiated attempts (the total counter is bumped before the request is
issued, so a dangling interrupted attempt is counted in the total without
an emitted line). -/
theorem poll_sequence_contiguous (limit : Option Nat) (interval : ℚ) (raw : Bool)
    (events : List PollEvent) :
    (((pollRun limit interval raw events).trace.filter isAttempt).map seqOf =
      List.range' 1
        (((pollRun limit interval raw events).trace.filter isAttempt).length)) ∧
    ((pollRun limit interval raw events).trace.filter isAttempt).length ≤
      (pollRun limit interval raw events).stats.total := by
  obtain ⟨n, h1, h2⟩ := pollLoop_seq_general limit interval raw events ⟨0, 0, 0⟩
  have hlen : ((pollRun limit interval raw events).trace.filter isAttempt).length = n := by
    have := congrArg List.length h1
    simpa [pollRun, List.length_range'] using this
  constructor
  · rw [hlen]
    exact h1
  · rw [hlen]
    unfold pollRun
    omega

theorem noNL_append (a b : String) (ha : '\n' ∉ a.data) (hb : '\n' ∉ b.data) :
    '\n' ∉ (a ++ b).data := by
  intro h
  rw [String.data_append] at h
  rcases List.mem_append.mp h with h | h
  · exact ha h
  · exact hb h


theorem digitChar_big (k : Nat) (h : 16 ≤ k) : Nat.digitChar k = '*' := by
  have h0 : k ≠ 0 := by omega
  have h1 : k ≠ 1 := by omega
  have h2 : k ≠ 2 := by omega
  have h3 : k ≠ 3 := by omega
  have h4 : k ≠ 4 := by omega
  have h5 : k ≠ 5 := by omega
  have h6 : k ≠ 6 := by omega
  have h7 : k ≠ 7 := by omega
  have h8 : k ≠ 8 := by omega
  have h9 : k ≠ 9 := by omega
  have h10 : k ≠ 10 := by omega
  have h11 : k ≠ 11 := by omega
  have h12 : k ≠ 12 := by omega
  have h13 : k ≠ 13 := by omega
  have h14 : k ≠ 14 := by omega
  have h15 : k ≠ 15 := by omega
  simp [Nat.digitChar, h0, h1, h2, h3, h4, h5, h6, h7, h8, h9, h10, h11, h12,
    h13, h14, h15]

theorem digitChar_ne_nl (k : Nat) : Nat.digitChar k ≠ '\n' := by
  by_cases h : k < 16
  · exact (by decide : ∀ j < 16, Nat.digitChar j ≠ '\n') k h
  · rw [digitChar_big k (by omega)]
    decide

theorem toDigitsCore_mem (b : Nat) :
    ∀ (f n : Nat) (l : List Char) (c : Char), c ∈ Nat.toDigitsCore b f n l →
      c ∈ l ∨ ∃ k, c = Nat.digitChar k := by
  intro f
  induction f with
  | zero => intro n l c h; exact Or.inl h
  | succ f ih =>
    intro n l c h
    simp only [Nat.toDigitsCore] at h
    split at h
    · rcases List.mem_cons.mp h with h | h
      · exact Or.inr ⟨n % b, h⟩
      · exact Or.inl h
    · rcases ih (n / b) (Nat.digitChar (n % b) :: l) c h with h | h
      · rcases List.mem_cons.mp h with h | h
        · exact Or.inr ⟨n % b, h⟩
        · exact Or.inl h
      · exact Or.inr h

theorem natRepr_noNL (n : Nat) : '\n' ∉ (toString n).data := by
  intro h
  have h2 : ('\n' : Char) ∈ Nat.toDigits 10 n := h
  rcases toDigitsCore_mem 10 (n + 1) n [] '\n' h2 with h3 | ⟨k, h3⟩
  · cases h3
  · exact digitChar_ne_nl k h3.symm

theorem intRepr_noNL (i : Int) : '\n' ∉ (toString i).data := by
  cases i with
  | ofNat m => exact natRepr_noNL m
  | negSucc m =>
    have heq : toString (Int.negSucc m) = "-" ++ Nat.repr (m + 1) := rfl
    rw [heq]
    exact noNL_append "-" (Nat.repr (m + 1)) (by decide) (natRepr_noNL (m + 1))

theorem hexDigitChar_lt_ne_nl : ∀ k < 16, hexDigitChar k ≠ '\n' := by decide

theorem hex4_noNL (n : Nat) : '\n' ∉ (hex4 n).data := by
  intro h
  simp only [hex4, List.mem_cons, List.not_mem_nil, or_false] at h
  rcases h with h | h | h | h <;>
    exact hexDigitChar_lt_ne_nl _ (Nat.mod_lt _ (by decide)) h.symm

theorem escChar_noNL (c : Char) : '\n' ∉ (escChar c).data := by
  unfold escChar
  repeat' split
  · decide
  · decide
  · decide
  · decide
  · decide
  · decide
  · decide
  · exact noNL_append "\\u" (hex4 c.toNat) (by decide) (hex4_noNL c.toNat)
  · intro hmem
    have hc : '\n' = c := by
      simpa [String.singleton] using hmem
    subst hc
    exact absurd (beq_self_eq_true '\n') (by assumption)
  · exact noNL_append "\\u" (hex4 c.toNat) (by decide) (hex4_noNL c.toNat)
  · exact noNL_append _ _
      (noNL_append _ _
        (noNL_append "\\u" (hex4 (55296 + (c.toNat - 65536) / 1024)) (by decide)
          (hex4_noNL _)) (by decide))
      (hex4_noNL (56320 + (c.toNat - 65536) % 1024))

theorem escapeList_noNL (l : List Char) : '\n' ∉ (escapeList l).data := by
  induction l with
  | nil => decide
  | cons c cs ih => exact noNL_append _ _ (escChar_noNL c) ih

theorem jsonEscape_noNL (s : String) : '\n' ∉ (jsonEscape s).data :=
  noNL_append _ _ (noNL_append _ _ (by decide) (escapeList_noNL s.data)) (by decide)

theorem replicate0_noNL (k : Nat) :
    '\n' ∉ (String.mk (List.replicate k '0')).data := by
  simp [List.mem_replicate]

theorem mk_take_noNL (l : List Char) (k : Nat) (h : '\n' ∉ l) :
    '\n' ∉ (String.mk (l.take k)).data :=
  fun hm => h (List.take_subset k l hm)

theorem mk_drop_noNL (l : List Char) (k : Nat) (h : '\n' ∉ l) :
    '\n' ∉ (String.mk (l.drop k)).data :=
  fun hm => h (List.drop_subset k l hm)

theorem pyFloatRepr_noNL (m e : Int) : '\n' ∉ (pyFloatRepr m e).data := by
  unfold pyFloatRepr
  repeat' first
    | exact natRepr_noNL _
    | exact replicate0_noNL _
    | exact mk_take_noNL _ _ (natRepr_noNL _)
    | exact mk_drop_noNL _ _ (natRepr_noNL _)
    | apply noNL_append
    | split
    | dsimp only
    | decide

mutual

theorem json_dumps_noNL (j : Json) : '\n' ∉ (json_dumps j).data := by
  cases j with
  | null => simp only [json_dumps]; decide
  | bool b => cases b <;> simp only [json_dumps] <;> decide
  | int n => simp only [json_dumps]; exact intRepr_noNL n
  | float m e => simp only [json_dumps]; exact pyFloatRepr_noNL m e
  | nan => simp only [json_dumps]; decide
  | inf b => cases b <;> simp only [json_dumps] <;> decide
  | str s => simp only [json_dumps]; exact jsonEscape_noNL s
  | arr xs =>
    simp only [json_dumps]
    exact noNL_append _ _ (noNL_append _ _ (by decide) (dumpsElems_noNL xs)) (by decide)
  | obj ms =>
    simp only [json_dumps]
    exact noNL_append _ _ (noNL_append _ _ (by decide) (dumpsMembers_noNL ms)) (by decide)

theorem dumpsElems_noNL (xs : List Json) : '\n' ∉ (dumpsElems xs).data := by
  match xs with
  | [] => simp only [dumpsElems]; decide
  | [x] => simp only [dumpsElems]; exact json_dumps_noNL x
  | x :: y :: t =>
    simp only [dumpsElems]
    exact noNL_append _ _ (noNL_append _ _ (json_dumps_noNL x) (by decide))
      (dumpsElems_noNL (y :: t))

theorem dumpsMembers_noNL (ms : List (String × Json)) : '\n' ∉ (dumpsMembers ms).data := by
  match ms with
  | [] => simp only [dumpsMembers]; decide
  | [(k, v)] =>
    simp only [dumpsMembers]
    exact noNL_append _ _ (noNL_append _ _ (jsonEscape_noNL k) (by decide))
      (json_dumps_noNL v)
  | (k, v) :: m :: t =>
    simp only [dumpsMembers]
    exact noNL_append _ _
      (noNL_append _ _
        (noNL_append _ _ (noNL_append _ _ (jsonEscape_noNL k) (by decide))
          (json_dumps_noNL v)) (by decide))
      (dumpsMembers_noNL (m :: t))

end

theorem hasNL_eq_false_iff (s : String) : hasNL s = false ↔ '\n' ∉ s.data := by
  simp [hasNL]

/-- Counterexample to C8 as stated: raw mode only strips leading and
trailing whitespace, so a body with an interior newline renders with that
newline intact — the formatter's output is not always a single line with
no embedded newlines. -/
theorem format_body_single_line_cex :
    hasNL (format_body "a\nb" true) = true := by decide

/-- C8 (amended): the formatter's output embeds a newline exactly when
the underlying rendered text does — in raw mode and in the parsed-mode
fallback the output has a newline iff the trimmed body has one (the
placeholders are newline-free), a decoded object or array serializes with
every newline escaped so its output never embeds one, and a decoded
scalar's output has a newline iff the scalar's textual rendering has
one. -/
theorem format_body_newline_characterization (t : String) (j : Json) :
    (hasNL (format_body t true) = hasNL (pyStrip t)) ∧
    (json_loads t = some j → j.isContainer = true →
      hasNL (format_body t false) = false) ∧
    (json_loads t = some j → j.isContainer = false →
      hasNL (format_body t false) = hasNL (pyStr j)) ∧
    (json_loads t = none → hasNL (format_body t false) = hasNL (pyStrip t)) := by
  refine ⟨?_, ?_, ?_, ?_⟩
  · by_cases h : pyStrip t = ""
    · simp [format_body, h]
      try decide
    · simp [format_body, h]
  · intro hp hc
    simp [format_body, hp, hc]
    exact (hasNL_eq_false_iff (json_dumps j)).mpr (json_dumps_noNL j)
  · intro hp hc
    simp [format_body, hp, hc]
  · intro hp
    by_cases h : pyStrip t = ""
    · simp [format_body, hp, h]
      try decide
    · simp [format_body, hp, h]

/-- Witness for C8 (amended): a decoded object body renders with no
newline, and a decoded string scalar renders with exactly the newlines of
the decoded value. -/
theorem format_body_newline_inst :
    hasNL (format_body "\x7b\"a\": \"b\"\x7d" false) = false ∧
    hasNL (format_body "\"x\"" false) = hasNL (pyStr (Json.str "x")) := by
  exact ⟨(format_body_newline_characterization "\x7b\"a\": \"b\"\x7d"
      (Json.obj [("a", Json.str "b")])).2.1 rfl rfl,
    (format_body_newline_characterization "\"x\"" (Json.str "x")).2.2.1 rfl rfl⟩
